import Mathlib

/-!
Verification of the LRMF collaborative-filtering core (`recommender.ipynb`).

Shallow embedding of the three functions of the notebook — `compute_cost`,
`update` and `train` — together with proofs and refutations of the
specification claims about them.

Two embeddings are used:

* `LRMF.*`: a typed embedding over `Matrix (Fin _) (Fin _) α` for a linear
  ordered field `α` (instantiated at `ℚ` for concrete evaluation and at `ℝ`
  for calculus).  numpy float arithmetic is modelled as exact field
  arithmetic, and `np.linalg.norm(A) ** 2` as the squared Frobenius norm.
* `NP.*`: an untyped embedding over `List (List ℚ)` that also models the
  numpy shape checks and 2-d broadcasting, used for the claims about shape
  mismatches and shape contracts.
-/

set_option maxHeartbeats 1000000

namespace LRMF

variable {α : Type} [LinearOrderedField α]

/-- Squared Frobenius norm: the exact value of `np.linalg.norm(A) ** 2`
(sum of squares of all entries). -/
def frobSq {m n : ℕ} (A : Matrix (Fin m) (Fin n) α) : α :=
  ∑ i, ∑ j, A i j ^ 2

/-- numpy elementwise product of a float matrix with a boolean mask of the
same shape: entries where the mask is `false` become `0`. -/
def maskMul {m n : ℕ} (A : Matrix (Fin m) (Fin n) α)
    (R : Matrix (Fin m) (Fin n) Bool) : Matrix (Fin m) (Fin n) α :=
  Matrix.of fun i j => if R i j then A i j else 0

/-- Embedding of `compute_cost` from `recommender.ipynb`:
```
error = (X @ Theta.T - Y) * has_rating
squared_diff = np.sum(error @ error.T) / 2
penalty = reg / 2 * (np.linalg.norm(X) ** 2 + np.linalg.norm(Theta) ** 2)
return squared_diff + penalty
```
`np.sum` sums all entries of its matrix argument. -/
def compute_cost {ni nu k : ℕ} (X : Matrix (Fin ni) (Fin k) α)
    (Theta : Matrix (Fin nu) (Fin k) α) (Y : Matrix (Fin ni) (Fin nu) α)
    (has_rating : Matrix (Fin ni) (Fin nu) Bool) (reg : α) : α :=
  let error := maskMul (X * Theta.transpose - Y) has_rating
  let squared_diff := (∑ i, ∑ i2, (error * error.transpose) i i2) / 2
  let penalty := reg / 2 * (frobSq X + frobSq Theta)
  squared_diff + penalty

/-- Cost as the SPEC words it (for comparison with `compute_cost`):
`(1/2) · sum_over_all_entries(E[i,j]^2) + (reg/2) · (‖X‖_F^2 + ‖Theta‖_F^2)`
where `E` is the residual with unobserved entries forced to zero. -/
def specComputeCost {ni nu k : ℕ} (X : Matrix (Fin ni) (Fin k) α)
    (Theta : Matrix (Fin nu) (Fin k) α) (Y : Matrix (Fin ni) (Fin nu) α)
    (has_rating : Matrix (Fin ni) (Fin nu) Bool) (reg : α) : α :=
  1 / 2 * (∑ i, ∑ j, maskMul (X * Theta.transpose - Y) has_rating i j ^ 2)
    + reg / 2 * (frobSq X + frobSq Theta)

/-- Expression the source assigns to `dX` in `update`:
`((X @ Theta.T - Y) * has_rating) @ Theta + reg * X`. -/
def gradX {ni nu k : ℕ} (X : Matrix (Fin ni) (Fin k) α)
    (Theta : Matrix (Fin nu) (Fin k) α) (Y : Matrix (Fin ni) (Fin nu) α)
    (has_rating : Matrix (Fin ni) (Fin nu) Bool) (reg : α) :
    Matrix (Fin ni) (Fin k) α :=
  maskMul (X * Theta.transpose - Y) has_rating * Theta + reg • X

/-- Expression the source assigns to `dTheta` in `update`:
`((X @ Theta.T - Y) * has_rating).T @ X + reg * Theta`, written with the
original (pre-update) `X`. -/
def gradTheta {ni nu k : ℕ} (X : Matrix (Fin ni) (Fin k) α)
    (Theta : Matrix (Fin nu) (Fin k) α) (Y : Matrix (Fin ni) (Fin nu) α)
    (has_rating : Matrix (Fin ni) (Fin nu) Bool) (reg : α) :
    Matrix (Fin nu) (Fin k) α :=
  (maskMul (X * Theta.transpose - Y) has_rating).transpose * X + reg • Theta

/-- Embedding of `update` from `recommender.ipynb`, line by line:
```
dX = ((X @ Theta.T - Y) * has_rating) @ Theta + reg * X
dTheta = ((X @ Theta.T - Y) * has_rating).T @ X + reg * Theta
X -= alpha * dX
Theta -= alpha * dTheta
return X, Theta
```
Both gradients are computed before either matrix is reassigned. -/
def update {ni nu k : ℕ} (X : Matrix (Fin ni) (Fin k) α)
    (Theta : Matrix (Fin nu) (Fin k) α) (Y : Matrix (Fin ni) (Fin nu) α)
    (has_rating : Matrix (Fin ni) (Fin nu) Bool) (reg alpha : α) :
    Matrix (Fin ni) (Fin k) α × Matrix (Fin nu) (Fin k) α :=
  let dX := maskMul (X * Theta.transpose - Y) has_rating * Theta + reg • X
  let dTheta :=
    (maskMul (X * Theta.transpose - Y) has_rating).transpose * X + reg • Theta
  let X1 := X - alpha • dX
  let Theta1 := Theta - alpha • dTheta
  (X1, Theta1)

/-- One pass of the loop body state change, as a function on the pair
`(X, Theta)`. -/
def updatePair {ni nu k : ℕ} (Y : Matrix (Fin ni) (Fin nu) α)
    (has_rating : Matrix (Fin ni) (Fin nu) Bool) (reg alpha : α)
    (s : Matrix (Fin ni) (Fin k) α × Matrix (Fin nu) (Fin k) α) :
    Matrix (Fin ni) (Fin k) α × Matrix (Fin nu) (Fin k) α :=
  update s.1 s.2 Y has_rating reg alpha

/-- Loop `for i in range(n_iter)` of `train`: `n` iterations remain, `i`
is the current iteration index, `s` the current `(X, Theta)`.  The emitted
`(iteration, loss)` pairs model the `print` calls. -/
def trainLoop {ni nu k : ℕ} (Y : Matrix (Fin ni) (Fin nu) α)
    (has_rating : Matrix (Fin ni) (Fin nu) Bool) (reg alpha : α) :
    ℕ → ℕ → Matrix (Fin ni) (Fin k) α × Matrix (Fin nu) (Fin k) α →
    (Matrix (Fin ni) (Fin k) α × Matrix (Fin nu) (Fin k) α) × List (ℕ × α)
  | 0, _, s => (s, [])
  | n + 1, i, s =>
    let rep :=
      if i = 0 ∨ i % 100 = 0 then [(i, compute_cost s.1 s.2 Y has_rating reg)]
      else []
    let r := trainLoop Y has_rating reg alpha n (i + 1)
      (updatePair Y has_rating reg alpha s)
    (r.1, rep ++ r.2)

/-- Embedding of `train` from `recommender.ipynb`.  The calls
`np.random.randn(ni, n_factor)` and `np.random.randn(nu, n_factor)` are
modelled by the oracle parameters `X0` and `Theta0` (the shapes are carried
by the types); the rest is the loop. -/
def train {ni nu k : ℕ} (Y : Matrix (Fin ni) (Fin nu) α)
    (has_rating : Matrix (Fin ni) (Fin nu) Bool) (reg alpha : α) (n_iter : ℕ)
    (X0 : Matrix (Fin ni) (Fin k) α) (Theta0 : Matrix (Fin nu) (Fin k) α) :
    (Matrix (Fin ni) (Fin k) α × Matrix (Fin nu) (Fin k) α) × List (ℕ × α) :=
  trainLoop Y has_rating reg alpha n_iter 0 (X0, Theta0)

end LRMF

open LRMF

/-- Item-factor matrix of the C3 counterexample with its `(0,0)` entry
left as a parameter, so the cost can be differentiated in that entry. -/
def XsC3 (s : ℝ) : Matrix (Fin 2) (Fin 1) ℝ := !![s; 1]

namespace NP

/-- Untyped numpy-style 2-d array: a list of rows of rationals. -/
abbrev NMat := List (List ℚ)

/-- numpy shape of a 2-d array: `(number of rows, length of the first row)`. -/
def dims (A : NMat) : ℕ × ℕ := (A.length, (A.head?.getD []).length)

/-- Predicate: `A` is a rectangular `m × n` array. -/
def Mat (m n : ℕ) (A : NMat) : Prop :=
  A.length = m ∧ ∀ r ∈ A, r.length = n

instance (m n : ℕ) (A : NMat) : Decidable (Mat m n A) := by
  unfold Mat
  infer_instance

/-- Entry access with out-of-range defaulting (only used in range). -/
def entry (A : NMat) (i j : ℕ) : ℚ := (A.getD i []).getD j 0

/-- Transpose `A.T`. -/
def transpose (A : NMat) : NMat :=
  (List.range (dims A).2).map fun j => A.map fun r => r.getD j 0

/-- Product `A @ B`: fails when the inner dimensions disagree. -/
def matmul (A B : NMat) : Except String NMat :=
  if (dims A).2 = (dims B).1 then
    .ok ((List.range (dims A).1).map fun i =>
      (List.range (dims B).2).map fun j =>
        ((List.range (dims A).2).map fun l => entry A i l * entry B l j).sum)
  else .error "matmul: dimension mismatch"

/-- numpy broadcasting of one axis: equal sizes, or stretch a size-1 axis. -/
def bcastDim (a b : ℕ) : Option ℕ :=
  if a = b then some a
  else if a = 1 then some b
  else if b = 1 then some a
  else none

/-- Elementwise binary operation with numpy 2-d broadcasting; fails when the
shapes cannot be broadcast together. -/
def bop (f : ℚ → ℚ → ℚ) (A B : NMat) : Except String NMat :=
  match bcastDim (dims A).1 (dims B).1, bcastDim (dims A).2 (dims B).2 with
  | some r1, some r2 =>
    .ok ((List.range r1).map fun i => (List.range r2).map fun j =>
      f (entry A (if (dims A).1 = 1 then 0 else i)
          (if (dims A).2 = 1 then 0 else j))
        (entry B (if (dims B).1 = 1 then 0 else i)
          (if (dims B).2 = 1 then 0 else j)))
  | _, _ => .error "operands could not be broadcast together"

/-- Scalar times matrix (numpy scalar broadcasting, never fails). -/
def smul (c : ℚ) (A : NMat) : NMat := A.map fun r => r.map fun x => c * x

/-- Sum `np.sum`: sum of all entries. -/
def sumAll (A : NMat) : ℚ := (A.map fun r => r.sum).sum

/-- Value of `np.linalg.norm(A) ** 2`: sum of squares of all entries. -/
def sumSq (A : NMat) : ℚ := (A.map fun r => (r.map fun x => x ^ 2).sum).sum

/-- Untyped embedding of `compute_cost`, with the numpy shape behaviour. -/
def compute_cost (X Theta Y has_rating : NMat) (reg : ℚ) :
    Except String ℚ := do
  let p ← matmul X (transpose Theta)
  let d ← bop (fun a b => a - b) p Y
  let e ← bop (fun a b => a * b) d has_rating
  let g ← matmul e (transpose e)
  return sumAll g / 2 + reg / 2 * (sumSq X + sumSq Theta)

/-- Untyped embedding of `update`, with the numpy shape behaviour; the two
gradient expressions recompute the masked residual exactly as the source
does. -/
def update (X Theta Y has_rating : NMat) (reg alpha : ℚ) :
    Except String (NMat × NMat) := do
  let p1 ← matmul X (transpose Theta)
  let d1 ← bop (fun a b => a - b) p1 Y
  let e1 ← bop (fun a b => a * b) d1 has_rating
  let t1 ← matmul e1 Theta
  let dX ← bop (fun a b => a + b) t1 (smul reg X)
  let p2 ← matmul X (transpose Theta)
  let d2 ← bop (fun a b => a - b) p2 Y
  let e2 ← bop (fun a b => a * b) d2 has_rating
  let t2 ← matmul (transpose e2) X
  let dTheta ← bop (fun a b => a + b) t2 (smul reg Theta)
  let X1 ← bop (fun a b => a - b) X (smul alpha dX)
  let Theta1 ← bop (fun a b => a - b) Theta (smul alpha dTheta)
  return (X1, Theta1)

/-- Untyped embedding of the `train` loop. -/
def trainLoop (Y R : NMat) (reg alpha : ℚ) :
    ℕ → ℕ → NMat × NMat → Except String ((NMat × NMat) × List (ℕ × ℚ))
  | 0, _, s => .ok (s, [])
  | n + 1, i, s => do
    let rep ←
      if i = 0 ∨ i % 100 = 0 then do
        let c ← compute_cost s.1 s.2 Y R reg
        pure [(i, c)]
      else pure ([] : List (ℕ × ℚ))
    let s1 ← update s.1 s.2 Y R reg alpha
    let r ← trainLoop Y R reg alpha n (i + 1) s1
    return (r.1, rep ++ r.2)

/-- Untyped embedding of `train`; `X0`, `Theta0` model the two
`np.random.randn` results. -/
def train (Y R : NMat) (reg alpha : ℚ) (n_iter : ℕ) (X0 Theta0 : NMat) :
    Except String ((NMat × NMat) × List (ℕ × ℚ)) :=
  trainLoop Y R reg alpha n_iter 0 (X0, Theta0)

end NP

namespace LRMF

variable {α : Type} [LinearOrderedField α]

/-- Sum of all entries of `E * Eᵀ` (what `np.sum(error @ error.T)`
computes) equals the sum over columns of the squared column sums of `E`. -/
lemma sum_entries_mul_transpose {m n : ℕ} (E : Matrix (Fin m) (Fin n) α) :
    ∑ i, ∑ i2, (E * E.transpose) i i2 = ∑ j, (∑ i, E i j) ^ 2 := by
  simp only [Matrix.mul_apply, Matrix.transpose_apply]
  calc ∑ i, ∑ i2, ∑ j, E i j * E i2 j
      = ∑ i, ∑ j, ∑ i2, E i j * E i2 j :=
        Finset.sum_congr rfl fun i _ => Finset.sum_comm
    _ = ∑ j, ∑ i, ∑ i2, E i j * E i2 j := Finset.sum_comm
    _ = ∑ j, ∑ i, E i j * ∑ i2, E i2 j :=
        Finset.sum_congr rfl fun j _ => Finset.sum_congr rfl fun i _ =>
          (Finset.mul_sum _ _ _).symm
    _ = ∑ j, (∑ i, E i j) * ∑ i2, E i2 j :=
        Finset.sum_congr rfl fun j _ => (Finset.sum_mul _ _ _).symm
    _ = ∑ j, (∑ i, E i j) ^ 2 :=
        Finset.sum_congr rfl fun j _ => (sq _).symm

lemma frobSq_nonneg {m n : ℕ} (A : Matrix (Fin m) (Fin n) α) : 0 ≤ frobSq A :=
  Finset.sum_nonneg fun _ _ => Finset.sum_nonneg fun _ _ => sq_nonneg _

/-- Closed form of the training loop: starting at iteration index `i` with
state `s` and `n` iterations remaining, the final state is the `n`-fold
iterate of the step function, and the emitted reports are exactly the
iteration indices divisible by 100 paired with the cost of the state
reached before that iteration runs its update. -/
lemma trainLoop_spec {ni nu k : ℕ} (Y : Matrix (Fin ni) (Fin nu) α)
    (R : Matrix (Fin ni) (Fin nu) Bool) (reg alpha : α) (n : ℕ) :
    ∀ (i : ℕ) (s : Matrix (Fin ni) (Fin k) α × Matrix (Fin nu) (Fin k) α),
    trainLoop Y R reg alpha n i s =
      ((updatePair Y R reg alpha)^[n] s,
       (List.range n).filterMap fun t =>
         if (i + t) % 100 = 0 then
           some (i + t,
             compute_cost ((updatePair Y R reg alpha)^[t] s).1
               ((updatePair Y R reg alpha)^[t] s).2 Y R reg)
         else none) := by
  induction n with
  | zero =>
    intro i s
    simp [trainLoop]
  | succ n ih =>
    intro i s
    have hcond : (i = 0 ∨ i % 100 = 0) ↔ i % 100 = 0 := by
      constructor
      · rintro (rfl | h)
        · rfl
        · exact h
      · exact Or.inr
    have harg : ∀ t : ℕ,
        ((fun t => if (i + t) % 100 = 0 then
            some (i + t,
              compute_cost ((updatePair Y R reg alpha)^[t] s).1
                ((updatePair Y R reg alpha)^[t] s).2 Y R reg)
          else none) ∘ Nat.succ) t
        = (fun t => if ((i + 1) + t) % 100 = 0 then
            some ((i + 1) + t,
              compute_cost
                ((updatePair Y R reg alpha)^[t] (updatePair Y R reg alpha s)).1
                ((updatePair Y R reg alpha)^[t] (updatePair Y R reg alpha s)).2
                Y R reg)
          else none) t := by
      intro t
      have h1 : i + (t + 1) = (i + 1) + t := by omega
      simp only [Function.comp_apply, Nat.succ_eq_add_one, h1,
        Function.iterate_succ_apply]
    simp only [trainLoop, ih (i + 1) (updatePair Y R reg alpha s)]
    refine Prod.ext ?_ ?_
    · exact (Function.iterate_succ_apply _ _ _).symm
    · simp only [List.range_succ_eq_map, List.filterMap_cons, List.filterMap_map]
      rw [funext harg]
      by_cases hi : i % 100 = 0
      · simp [hcond, hi]
      · simp [hcond, hi]
        omega

/-- Cost at the C3 input as a function of `X[0,0] = s`: the implemented
cost equals `(s + 1)^2 / 2`. -/
lemma compute_cost_XsC3 (s : ℝ) :
    compute_cost (XsC3 s) !![(1 : ℝ)] !![(0 : ℝ); 0] !![true; true] 0
      = (s + 1) ^ 2 / 2 := by
  simp only [XsC3, compute_cost, maskMul, frobSq, Matrix.mul_apply,
    Fin.sum_univ_succ, Fin.sum_univ_zero, Matrix.sub_apply,
    Matrix.transpose_apply, Matrix.of_apply, Matrix.vecHead, Matrix.vecTail,
    Matrix.cons_val_zero, Matrix.cons_val_one]
  norm_num
  ring

end LRMF

namespace NP

lemma ok_bind {β γ : Type} (a : β) (f : β → Except String γ) :
    (Except.ok a >>= f) = f a := rfl

lemma pure_bind_ex {β γ : Type} (a : β) (f : β → Except String γ) :
    ((pure a : Except String β) >>= f) = f a := rfl

lemma error_bind {β γ : Type} (e : String) (f : β → Except String γ) :
    ((Except.error e : Except String β) >>= f) = .error e := rfl

lemma dims_eq {m n : ℕ} {A : NMat} (hA : Mat m n A) (hm : 0 < m) :
    dims A = (m, n) := by
  obtain ⟨hlen, hrow⟩ := hA
  match A with
  | [] => simp at hlen; omega
  | r :: t =>
    simp only [dims, List.head?_cons, Option.getD_some]
    exact Prod.ext (by simpa using hlen) (hrow r (List.mem_cons_self r t))

lemma mat_of_range {m n : ℕ} (g : ℕ → ℕ → ℚ) :
    Mat m n ((List.range m).map fun i => (List.range n).map fun j => g i j) := by
  constructor
  · simp
  · intro r hr
    simp only [List.mem_map, List.mem_range] at hr
    obtain ⟨i, _, rfl⟩ := hr
    simp

lemma matmul_ok {m p n : ℕ} {A B : NMat} (hA : Mat m p A) (hB : Mat p n B)
    (hm : 0 < m) (hp : 0 < p) :
    ∃ C, matmul A B = .ok C ∧ Mat m n C := by
  unfold matmul
  rw [dims_eq hA hm, dims_eq hB hp]
  simp only [if_pos rfl]
  exact ⟨_, rfl, mat_of_range _⟩

lemma transpose_mat {m n : ℕ} {A : NMat} (hA : Mat m n A) (hm : 0 < m) :
    Mat n m (transpose A) := by
  unfold transpose
  rw [dims_eq hA hm]
  constructor
  · simp
  · intro r hr
    simp only [List.mem_map, List.mem_range] at hr
    obtain ⟨j, _, rfl⟩ := hr
    simp [hA.1]

lemma bop_ok {m n : ℕ} (f : ℚ → ℚ → ℚ) {A B : NMat} (hA : Mat m n A)
    (hB : Mat m n B) (hm : 0 < m) :
    ∃ C, bop f A B = .ok C ∧ Mat m n C := by
  unfold bop
  rw [dims_eq hA hm, dims_eq hB hm]
  simp only [bcastDim, if_pos rfl]
  exact ⟨_, rfl, mat_of_range _⟩

lemma smul_mat {m n : ℕ} (c : ℚ) {A : NMat} (hA : Mat m n A) :
    Mat m n (smul c A) := by
  obtain ⟨hlen, hrow⟩ := hA
  constructor
  · simp [smul, hlen]
  · intro r hr
    simp only [smul, List.mem_map] at hr
    obtain ⟨r0, hr0, rfl⟩ := hr
    simp [hrow r0 hr0]

lemma compute_cost_ok {ni nu k : ℕ} {X Theta Y R : NMat} (reg : ℚ)
    (hX : Mat ni k X) (hT : Mat nu k Theta) (hY : Mat ni nu Y)
    (hR : Mat ni nu R) (hni : 0 < ni) (hnu : 0 < nu) (hk : 0 < k) :
    ∃ c, compute_cost X Theta Y R reg = .ok c := by
  obtain ⟨p, hp, hpm⟩ := matmul_ok hX (transpose_mat hT hnu) hni hk
  obtain ⟨d, hd, hdm⟩ := bop_ok (fun a b => a - b) hpm hY hni
  obtain ⟨e, he, hem⟩ := bop_ok (fun a b => a * b) hdm hR hni
  obtain ⟨g, hg, _⟩ := matmul_ok hem (transpose_mat hem hni) hni hnu
  refine ⟨sumAll g / 2 + reg / 2 * (sumSq X + sumSq Theta), ?_⟩
  unfold compute_cost
  simp only [hp, hd, he, hg, ok_bind, pure_bind_ex]
  rfl

lemma update_ok {ni nu k : ℕ} {X Theta Y R : NMat} (reg alpha : ℚ)
    (hX : Mat ni k X) (hT : Mat nu k Theta) (hY : Mat ni nu Y)
    (hR : Mat ni nu R) (hni : 0 < ni) (hnu : 0 < nu) (hk : 0 < k) :
    ∃ X1 Theta1, update X Theta Y R reg alpha = .ok (X1, Theta1) ∧
      Mat ni k X1 ∧ Mat nu k Theta1 := by
  obtain ⟨p1, hp1, hp1m⟩ := matmul_ok hX (transpose_mat hT hnu) hni hk
  obtain ⟨d1, hd1, hd1m⟩ := bop_ok (fun a b => a - b) hp1m hY hni
  obtain ⟨e1, he1, he1m⟩ := bop_ok (fun a b => a * b) hd1m hR hni
  obtain ⟨t1, ht1, ht1m⟩ := matmul_ok he1m hT hni hnu
  obtain ⟨dX, hdX, hdXm⟩ := bop_ok (fun a b => a + b) ht1m (smul_mat reg hX) hni
  obtain ⟨t2, ht2, ht2m⟩ := matmul_ok (transpose_mat he1m hni) hX hnu hni
  obtain ⟨dT, hdT, hdTm⟩ := bop_ok (fun a b => a + b) ht2m (smul_mat reg hT) hnu
  obtain ⟨X1, hX1, hX1m⟩ := bop_ok (fun a b => a - b) hX (smul_mat alpha hdXm) hni
  obtain ⟨T1, hT1, hT1m⟩ := bop_ok (fun a b => a - b) hT (smul_mat alpha hdTm) hnu
  refine ⟨X1, T1, ?_, hX1m, hT1m⟩
  unfold update
  simp only [hp1, hd1, he1, ht1, hdX, ht2, hdT, hX1, hT1, ok_bind,
    pure_bind_ex]
  rfl

lemma trainLoop_ok {ni nu k : ℕ} {Y R : NMat} (reg alpha : ℚ)
    (hY : Mat ni nu Y) (hR : Mat ni nu R) (hni : 0 < ni) (hnu : 0 < nu)
    (hk : 0 < k) :
    ∀ (n i : ℕ) (s : NMat × NMat), Mat ni k s.1 → Mat nu k s.2 →
    ∃ X T reports, trainLoop Y R reg alpha n i s = .ok ((X, T), reports) ∧
      Mat ni k X ∧ Mat nu k T := by
  intro n
  induction n with
  | zero => exact fun i s h1 h2 => ⟨s.1, s.2, [], rfl, h1, h2⟩
  | succ n ih =>
    intro i s h1 h2
    obtain ⟨c, hc⟩ := compute_cost_ok reg h1 h2 hY hR hni hnu hk
    obtain ⟨X1, T1, hu, hX1, hT1⟩ := update_ok reg alpha h1 h2 hY hR hni hnu hk
    obtain ⟨X2, T2, rep2, hrec, hX2, hT2⟩ := ih (i + 1) (X1, T1) hX1 hT1
    by_cases hcond : i = 0 ∨ i % 100 = 0
    · refine ⟨X2, T2, (i, c) :: rep2, ?_, hX2, hT2⟩
      show (trainLoop Y R reg alpha (n + 1) i s) = _
      simp only [trainLoop, if_pos hcond, hc, ok_bind, pure_bind_ex, hu, hrec]
      rfl
    · refine ⟨X2, T2, rep2, ?_, hX2, hT2⟩
      simp only [trainLoop, if_neg hcond, pure_bind_ex, hu, ok_bind, hrec]
      rfl

end NP

/-- C1: `compute_cost` does NOT return
`(1/2)·ΣE² + (reg/2)(‖X‖²+‖Θ‖²)`: `np.sum(error @ error.T)` sums all entries
of the Gram matrix, not only its diagonal.  At `X = [[1],[1]]`,
`Theta = [[1]]`, `Y = [[0],[0]]`, all entries observed and `reg = 0`, the
code returns `2` while the documented cost is `1`. -/
theorem compute_cost_vs_spec_cost_eval :
    compute_cost !![(1 : ℚ); 1] !![(1 : ℚ)] !![(0 : ℚ); 0] !![true; true] 0 = 2 ∧
    specComputeCost !![(1 : ℚ); 1] !![(1 : ℚ)] !![(0 : ℚ); 0] !![true; true] 0 = 1 := by
  constructor <;>
    norm_num [compute_cost, specComputeCost, maskMul, frobSq, Matrix.mul_apply,
      Fin.sum_univ_succ, Matrix.sub_apply, Matrix.transpose_apply,
      Matrix.of_apply, Matrix.vecHead, Matrix.vecTail, Matrix.cons_val_zero,
      Matrix.cons_val_one]

/-- C2: `compute_cost` can return exactly `0` with `reg = 0` even though
an observed entry is NOT exactly reconstructed: at `X = [[1],[-1]]`,
`Theta = [[1]]`, `Y = [[0],[0]]`, all entries observed, the masked residual
column sums to zero, the code returns `0`, yet the prediction at `(0,0)` is
`1 ≠ 0`. -/
theorem compute_cost_zero_without_reconstruction :
    compute_cost !![(1 : ℚ); -1] !![(1 : ℚ)] !![(0 : ℚ); 0] !![true; true] 0 = 0 ∧
    (!![true; true] : Matrix (Fin 2) (Fin 1) Bool) 0 0 = true ∧
    (!![(1 : ℚ); -1] * (!![(1 : ℚ)]).transpose) 0 0 ≠ (!![(0 : ℚ); 0]) 0 0 := by
  refine ⟨?_, rfl, ?_⟩ <;>
    norm_num [compute_cost, maskMul, frobSq, Matrix.mul_apply,
      Fin.sum_univ_succ, Matrix.sub_apply, Matrix.transpose_apply,
      Matrix.of_apply, Matrix.vecHead, Matrix.vecTail, Matrix.cons_val_zero,
      Matrix.cons_val_one]

/-- C3: the gradient `dX` computed by `update` is NOT the partial
derivative of the value returned by `compute_cost`: at `X = [[1],[1]]`,
`Theta = [[1]]`, `Y = [[0],[0]]`, all entries observed, `reg = 0`, the
partial derivative of the implemented cost with respect to `X[0,0]` is `2`,
while the value of `dX[0,0]` in the code is `1`.  (The gradients in the code
are the exact derivatives of the cost the notebook documents,
`½·ΣE² + penalty`, not of the value `compute_cost` actually returns.) -/
theorem update_gradient_not_derivative_of_compute_cost :
    HasDerivAt
      (fun s : ℝ =>
        compute_cost (XsC3 s) !![(1 : ℝ)] !![(0 : ℝ); 0] !![true; true] 0)
      2 1 ∧
    gradX (XsC3 1) !![(1 : ℝ)] !![(0 : ℝ); 0] !![true; true] 0 0 0 = 1 ∧
    (2 : ℝ) ≠ 1 := by
  refine ⟨?_, ?_, by norm_num⟩
  · have hfun : (fun s : ℝ =>
        compute_cost (XsC3 s) !![(1 : ℝ)] !![(0 : ℝ); 0] !![true; true] 0)
        = fun s : ℝ => (s + 1) ^ 2 / 2 := funext compute_cost_XsC3
    rw [hfun]
    have h := (((hasDerivAt_id (1 : ℝ)).add_const 1).pow 2).div_const 2
    norm_num at h
    exact h
  · simp only [XsC3, gradX, maskMul, Matrix.mul_apply, Fin.sum_univ_succ,
      Fin.sum_univ_zero, Matrix.sub_apply, Matrix.transpose_apply,
      Matrix.of_apply, Matrix.vecHead, Matrix.vecTail, Matrix.cons_val_zero,
      Matrix.cons_val_one, Matrix.add_apply, Matrix.smul_apply]
    norm_num

/-- C4 counterexample: a genuinely mismatched `Y` — shape `(1,2)` while `R`
and the predicted matrix have shape `(2,2)` — signals no error at all:
numpy broadcasts it and `compute_cost` returns the value `4`. -/
theorem NP_compute_cost_accepts_mismatched_shapes :
    NP.compute_cost [[1], [1]] [[1], [1]] [[0, 0]] [[1, 1], [1, 1]] 0
      = .ok 4 ∧
    NP.dims [[(0 : ℚ), 0]] ≠ NP.dims [[(1 : ℚ), 1], [1, 1]] := by
  constructor
  · norm_num [NP.compute_cost, NP.matmul, NP.transpose, NP.bop, NP.bcastDim,
      NP.entry, NP.dims, NP.sumAll, NP.sumSq, NP.ok_bind, List.range_succ,
      List.getD]
  · decide

/-- C4 amended: the code performs no eager shape validation at all.  Every
conforming input produces a value with no error; a broadcastable shape
mismatch is silently accepted (see the counterexample); and a
non-broadcastable mismatch produces an error raised from inside the numpy
operation that encounters it — after the `X @ Theta.T` product has already
been computed — not from an up-front dimension check. -/
theorem NP_compute_cost_no_eager_validation {ni nu k : ℕ}
    {X Theta Y R : NP.NMat} (reg alpha : ℚ) (hX : NP.Mat ni k X)
    (hT : NP.Mat nu k Theta) (hY : NP.Mat ni nu Y) (hR : NP.Mat ni nu R)
    (hni : 0 < ni) (hnu : 0 < nu) (hk : 0 < k) :
    (∃ c, NP.compute_cost X Theta Y R reg = .ok c) ∧
    (∃ X1 T1, NP.update X Theta Y R reg alpha = .ok (X1, T1)) ∧
    NP.compute_cost [[1], [1]] [[1], [1]] [[0, 0, 0]] [[1, 1], [1, 1]] 0
      = .error "operands could not be broadcast together" := by
  refine ⟨NP.compute_cost_ok reg hX hT hY hR hni hnu hk, ?_, ?_⟩
  · obtain ⟨X1, T1, hu, _, _⟩ :=
      NP.update_ok reg alpha hX hT hY hR hni hnu hk
    exact ⟨X1, T1, hu⟩
  · norm_num [NP.compute_cost, NP.matmul, NP.transpose, NP.bop, NP.bcastDim,
      NP.entry, NP.dims, NP.sumAll, NP.sumSq, NP.ok_bind, NP.error_bind,
      List.range_succ, List.getD]

/-- Witness for C4 at a conforming `2 × 2` input with one latent factor. -/
theorem NP_compute_cost_no_eager_validation_witness :
    ∃ c, NP.compute_cost [[1], [1]] [[2], [3]] [[0, 0], [0, 0]]
      [[1, 1], [0, 1]] 1 = .ok c :=
  (@NP_compute_cost_no_eager_validation 2 2 1 [[1], [1]] [[2], [3]]
    [[0, 0], [0, 0]] [[1, 1], [0, 1]] 1 1 (by decide) (by decide) (by decide)
    (by decide) (by decide) (by decide) (by decide)).1

/-- C5: entries of `Y` where the mask is false influence neither the cost
nor the update: two ratings matrices that agree on every observed entry give
the same cost and the same updated factors; and with an all-false mask the
cost is exactly the regularization penalty `reg/2 · (‖X‖_F² + ‖Theta‖_F²)`,
whatever `Y` holds. -/
theorem compute_cost_update_mask_invariance {ni nu k : ℕ}
    (X : Matrix (Fin ni) (Fin k) ℚ) (Theta : Matrix (Fin nu) (Fin k) ℚ)
    (Y Y2 : Matrix (Fin ni) (Fin nu) ℚ) (R : Matrix (Fin ni) (Fin nu) Bool)
    (reg alpha : ℚ) (hagree : ∀ i j, R i j = true → Y i j = Y2 i j) :
    (compute_cost X Theta Y R reg = compute_cost X Theta Y2 R reg ∧
      update X Theta Y R reg alpha = update X Theta Y2 R reg alpha) ∧
    ∀ (Yb : Matrix (Fin ni) (Fin nu) ℚ) (Rb : Matrix (Fin ni) (Fin nu) Bool),
      (∀ i j, Rb i j = false) →
      compute_cost X Theta Yb Rb reg = reg / 2 * (frobSq X + frobSq Theta) := by
  have hE : maskMul (X * Theta.transpose - Y) R
      = maskMul (X * Theta.transpose - Y2) R := by
    funext i j
    by_cases h : R i j = true
    · simp [maskMul, h, Matrix.sub_apply, hagree i j h]
    · simp [maskMul, h]
  refine ⟨⟨?_, ?_⟩, ?_⟩
  · unfold compute_cost
    rw [hE]
  · unfold update
    rw [hE]
  · intro Yb Rb hRb
    have hzero : maskMul (X * Theta.transpose - Yb) Rb = 0 := by
      funext i j
      simp [maskMul, hRb i j]
    unfold compute_cost
    rw [hzero]
    simp [Matrix.zero_mul]

/-- Witness for C5: with no observed entry, changing the stored rating from
`5` to `7` does not change the cost. -/
theorem compute_cost_update_mask_invariance_witness :
    compute_cost !![(1 : ℚ)] !![(1 : ℚ)] !![(5 : ℚ)] !![false] 1
      = compute_cost !![(1 : ℚ)] !![(1 : ℚ)] !![(7 : ℚ)] !![false] 1 :=
  (compute_cost_update_mask_invariance !![(1 : ℚ)] !![(1 : ℚ)] !![(5 : ℚ)]
    !![(7 : ℚ)] !![false] 1 1
    (fun i j h => by fin_cases i; fin_cases j; simp at h)).1.1

/-- C6: for every input and every `reg ≥ 0`, `compute_cost` returns a
non-negative value (the Gram-matrix entry sum is a sum of squared column
sums, hence non-negative, and so is the penalty). -/
theorem compute_cost_nonneg {ni nu k : ℕ} (X : Matrix (Fin ni) (Fin k) ℚ)
    (Theta : Matrix (Fin nu) (Fin k) ℚ) (Y : Matrix (Fin ni) (Fin nu) ℚ)
    (R : Matrix (Fin ni) (Fin nu) Bool) (reg : ℚ) (hreg : 0 ≤ reg) :
    0 ≤ compute_cost X Theta Y R reg := by
  simp only [compute_cost]
  rw [sum_entries_mul_transpose]
  have h1 : 0 ≤ ∑ j, (∑ i, maskMul (X * Theta.transpose - Y) R i j) ^ 2 :=
    Finset.sum_nonneg fun _ _ => sq_nonneg _
  have h2 := frobSq_nonneg X
  have h3 := frobSq_nonneg Theta
  have h4 : (0 : ℚ) ≤ reg / 2 * (frobSq X + frobSq Theta) :=
    mul_nonneg (by linarith) (by linarith)
  linarith

/-- Witness for C6 at a concrete input with `reg = 1`. -/
theorem compute_cost_nonneg_witness :
    0 ≤ compute_cost !![(3 : ℚ); 2] !![(1 : ℚ)] !![(5 : ℚ); 0] !![true; false] 1 :=
  compute_cost_nonneg !![(3 : ℚ); 2] !![(1 : ℚ)] !![(5 : ℚ); 0] !![true; false] 1
    (by norm_num)

/-- C7: `update` returns `(X - alpha • dX, Theta - alpha • dTheta)` where
both gradients are the source expressions evaluated on the pre-update
snapshot: `gradTheta` takes the ORIGINAL `X`, never the updated one (in the
source both `dX` and `dTheta` are computed before either in-place
subtraction runs). -/
theorem update_snapshot_gradients {ni nu k : ℕ} (X : Matrix (Fin ni) (Fin k) ℚ)
    (Theta : Matrix (Fin nu) (Fin k) ℚ) (Y : Matrix (Fin ni) (Fin nu) ℚ)
    (R : Matrix (Fin ni) (Fin nu) Bool) (reg alpha : ℚ) (_hreg : 0 ≤ reg)
    (_halpha : 0 < alpha) :
    update X Theta Y R reg alpha
      = (X - alpha • gradX X Theta Y R reg,
         Theta - alpha • gradTheta X Theta Y R reg) :=
  rfl

/-- Witness for C7 at a concrete input with `reg = 0`, `alpha = 1`. -/
theorem update_snapshot_gradients_witness :
    update !![(2 : ℚ)] !![(1 : ℚ)] !![(0 : ℚ)] !![true] 0 1
      = (!![(2 : ℚ)] - (1 : ℚ) • gradX !![(2 : ℚ)] !![(1 : ℚ)] !![(0 : ℚ)] !![true] 0,
         !![(1 : ℚ)] - (1 : ℚ) • gradTheta !![(2 : ℚ)] !![(1 : ℚ)] !![(0 : ℚ)] !![true] 0) :=
  update_snapshot_gradients !![(2 : ℚ)] !![(1 : ℚ)] !![(0 : ℚ)] !![true] 0 1
    le_rfl one_pos

/-- C8: `train` applies the update step exactly `n_iter` times in
sequence — the final state is the `n_iter`-fold iterate of `updatePair` on
the initial `(X0, Theta0)` (which models the random initialization), with
the iteration count as the sole termination condition — and it emits an
`(iteration, cost)` pair exactly before the first step and every 100-th
step thereafter, each carrying the cost of the state current at that
point. -/
theorem train_applies_update_n_iter_times {ni nu k : ℕ}
    (Y : Matrix (Fin ni) (Fin nu) ℚ) (R : Matrix (Fin ni) (Fin nu) Bool)
    (reg alpha : ℚ) (n_iter : ℕ) (X0 : Matrix (Fin ni) (Fin k) ℚ)
    (Theta0 : Matrix (Fin nu) (Fin k) ℚ) :
    (train Y R reg alpha n_iter X0 Theta0).1
      = (updatePair Y R reg alpha)^[n_iter] (X0, Theta0) ∧
    (train Y R reg alpha n_iter X0 Theta0).2
      = (List.range n_iter).filterMap fun t =>
          if t % 100 = 0 then
            some (t,
              compute_cost ((updatePair Y R reg alpha)^[t] (X0, Theta0)).1
                ((updatePair Y R reg alpha)^[t] (X0, Theta0)).2 Y R reg)
          else none := by
  unfold train
  rw [trainLoop_spec]
  exact ⟨rfl, by simp⟩

/-- C9: `train` on an `(ni, nu)` ratings matrix with `n_factor = k` returns
`X` of shape `(ni, k)` and `Theta` of shape `(nu, k)` (the witness
instantiates this at `(5, 7)` with `n_factor = 3`), and every single update
step preserves these shapes. -/
theorem NP_train_shape_contract {ni nu k : ℕ} (Y R X0 Theta0 : NP.NMat)
    (reg alpha : ℚ) (n_iter : ℕ) (hni : 0 < ni) (hnu : 0 < nu) (hk : 0 < k)
    (hY : NP.Mat ni nu Y) (hR : NP.Mat ni nu R) (hX0 : NP.Mat ni k X0)
    (hT0 : NP.Mat nu k Theta0) :
    (∃ X T reports, NP.train Y R reg alpha n_iter X0 Theta0
        = .ok ((X, T), reports) ∧ NP.Mat ni k X ∧ NP.Mat nu k T) ∧
    (∀ X T, NP.Mat ni k X → NP.Mat nu k T →
      ∃ X1 T1, NP.update X T Y R reg alpha = .ok (X1, T1) ∧
        NP.Mat ni k X1 ∧ NP.Mat nu k T1) := by
  constructor
  · exact NP.trainLoop_ok reg alpha hY hR hni hnu hk n_iter 0 (X0, Theta0)
      hX0 hT0
  · intro X T h1 h2
    exact NP.update_ok reg alpha h1 h2 hY hR hni hnu hk

/-- Witness for C9: a `(5, 7)` ratings matrix with `n_factor = 3` yields
`X` of shape `(5, 3)` and `Theta` of shape `(7, 3)`. -/
theorem NP_train_shape_contract_witness :
    ∃ X T reports,
      NP.train (List.replicate 5 (List.replicate 7 (0 : ℚ)))
        (List.replicate 5 (List.replicate 7 (1 : ℚ))) 0 1 1
        (List.replicate 5 (List.replicate 3 (0 : ℚ)))
        (List.replicate 7 (List.replicate 3 (0 : ℚ)))
        = .ok ((X, T), reports) ∧ NP.Mat 5 3 X ∧ NP.Mat 7 3 T :=
  (@NP_train_shape_contract 5 7 3
    (List.replicate 5 (List.replicate 7 (0 : ℚ)))
    (List.replicate 5 (List.replicate 7 (1 : ℚ)))
    (List.replicate 5 (List.replicate 3 (0 : ℚ)))
    (List.replicate 7 (List.replicate 3 (0 : ℚ))) 0 1 1 (by decide)
    (by decide) (by decide) (by decide) (by decide) (by decide) (by decide)).1

/-- C10: every report of `train` carries an iteration index that is a
multiple of 100 (which includes `0`) and is strictly below `n_iter`, and its
value is the cost of the state BEFORE that iteration runs its update step;
conversely every such index is reported; the post-final-update cost is never
emitted (all reported indices are `< n_iter`); and `n_iter = 0` performs no
update, emits nothing and returns the initial matrices unchanged. -/
theorem train_reports_pre_update_cost {ni nu k : ℕ}
    (Y : Matrix (Fin ni) (Fin nu) ℚ) (R : Matrix (Fin ni) (Fin nu) Bool)
    (reg alpha : ℚ) (n_iter : ℕ) (X0 : Matrix (Fin ni) (Fin k) ℚ)
    (Theta0 : Matrix (Fin nu) (Fin k) ℚ) :
    (∀ p ∈ (train Y R reg alpha n_iter X0 Theta0).2,
      p.1 % 100 = 0 ∧ p.1 < n_iter ∧
      p.2 = compute_cost ((updatePair Y R reg alpha)^[p.1] (X0, Theta0)).1
        ((updatePair Y R reg alpha)^[p.1] (X0, Theta0)).2 Y R reg) ∧
    (∀ i, i < n_iter → i % 100 = 0 →
      (i, compute_cost ((updatePair Y R reg alpha)^[i] (X0, Theta0)).1
        ((updatePair Y R reg alpha)^[i] (X0, Theta0)).2 Y R reg)
        ∈ (train Y R reg alpha n_iter X0 Theta0).2) ∧
    train Y R reg alpha 0 X0 Theta0 = ((X0, Theta0), []) := by
  have hspec := trainLoop_spec Y R reg alpha n_iter 0 (X0, Theta0)
  refine ⟨?_, ?_, ?_⟩
  · intro p hp
    unfold train at hp
    rw [hspec] at hp
    simp only [zero_add, List.mem_filterMap, List.mem_range] at hp
    obtain ⟨t, ht, hsome⟩ := hp
    by_cases h : t % 100 = 0
    · rw [if_pos h] at hsome
      obtain rfl := Option.some_injective _ hsome
      exact ⟨h, ht, rfl⟩
    · rw [if_neg h] at hsome
      exact absurd hsome (Option.noConfusion)
  · intro i hi h100
    unfold train
    rw [hspec]
    simp only [zero_add, List.mem_filterMap, List.mem_range]
    exact ⟨i, hi, by rw [if_pos h100]⟩
  · unfold train
    rw [trainLoop_spec]
    simp

/-- Witness for C10: at a concrete one-iteration run the pair
`(0, initial cost)` is among the emitted reports. -/
theorem train_reports_pre_update_cost_witness :
    ((0 : ℕ), compute_cost
        ((updatePair !![(0 : ℚ)] !![true] 0 1)^[0] (!![(0 : ℚ)], !![(0 : ℚ)])).1
        ((updatePair !![(0 : ℚ)] !![true] 0 1)^[0] (!![(0 : ℚ)], !![(0 : ℚ)])).2
        !![(0 : ℚ)] !![true] 0)
      ∈ (train !![(0 : ℚ)] !![true] 0 1 1 !![(0 : ℚ)] !![(0 : ℚ)]).2 :=
  (train_reports_pre_update_cost !![(0 : ℚ)] !![true] 0 1 1 !![(0 : ℚ)]
    !![(0 : ℚ)]).2.1 0 (by norm_num) rfl
